import Mathlib

/-!
Verification of the NetraLib core (namespace QCL): the chunked pattern
scanner shared by WriteFile::countBytesBeforePattern and
ReadFile::GetBytesBefore, the positional file operations, the read
operations, and the TcpServer start/stop state machine.

Files are modelled as lists of bytes (`List Nat`); a missing file is
`Option.none` where the distinction matters.  The ifstream chunked read
loop `while (file.read(chunk, 4096) || file.gcount() > 0)` delivers the
file as successive chunks of at most 4096 bytes; it is embedded with a
fuel argument (one unit of fuel per loop iteration, `file.length + 1`
units are always enough because every iteration consumes at least one
byte of the remaining input or terminates the loop).
-/

set_option maxRecDepth 100000

namespace QCL

/-- Earliest index at which `p` occurs in `l`, starting the search at
accumulated offset `i`: the embedding of `std::string::find` (which
returns `npos`, here `none`, when absent, and `0` on an empty needle). -/
def findAux (p : List Nat) : Nat → List Nat → Option Nat
  | i, [] => if p.isPrefixOf [] then some i else none
  | i, a :: t => if p.isPrefixOf (a :: t) then some i else findAux p (i + 1) t

/-- Embedding of `buffer.find(pattern)`: earliest occurrence index of `p`
in `l`, or `none`. -/
def findPattern (p l : List Nat) : Option Nat :=
  findAux p 0 l

/-- Embedding of the buffer trim
`if (buffer.size() > pattern.size()) buffer.erase(0, buffer.size() - pattern.size());`:
keeps only the trailing `p.length` bytes of an oversized buffer. -/
def trimBuffer (buffer p : List Nat) : List Nat :=
  if p.length < buffer.length then buffer.drop (buffer.length - p.length) else buffer

/-- Embedding of the scan loop shared by `WriteFile::countBytesBeforePattern`
and `ReadFile::GetBytesBefore` (Netra.cpp): append the next 4096-byte chunk
to the rolling buffer, run `find`, and on a hit return the position *within
the buffer* (plus the pattern length when the include flag is set); on a
miss trim the buffer and continue.  The accumulated `totalRead` of the C++
code is deliberately absent from the returned value, exactly as in the
source, where `totalRead` is updated but never used.  Returns `0` when the
input is exhausted. -/
def scanChunksFuel (p : List Nat) (includePattern : Bool) :
    Nat → List Nat → List Nat → Nat
  | 0, _, _ => 0
  | fuel + 1, remaining, buffer =>
    if remaining.isEmpty then 0
    else
      let buf := buffer ++ remaining.take 4096
      match findPattern p buf with
      | some pos => if includePattern then pos + p.length else pos
      | none => scanChunksFuel p includePattern fuel (remaining.drop 4096) (trimBuffer buf p)

/-- Embedding of `WriteFile::countBytesBeforePattern(pattern, includePattern)`
(Netra.cpp, lines 302-340) on a file whose content is `file`: an empty
pattern returns `0` immediately; otherwise the chunked scan runs from the
start of the file with an empty rolling buffer. -/
def countBytesBeforePattern (file pattern : List Nat) (includePattern : Bool) : Nat :=
  if pattern = [] then 0
  else scanChunksFuel pattern includePattern (file.length + 1) file []

/-- Embedding of `ReadFile::GetBytesBefore(marker, includeMarker)`
(Netra.cpp, lines 422-460) on a file whose content is `file`: identical
loop, but with no empty-marker guard (an empty marker is found at buffer
position `0` on the first chunk, or the loop never runs on an empty file;
either way the result is `0`). -/
def GetBytesBefore (file marker : List Nat) (includeMarker : Bool) : Nat :=
  scanChunksFuel marker includeMarker (file.length + 1) file []

/-- A 4098-byte file whose only occurrence of the pattern `[1, 2]` is in
the second 4096-byte chunk, at absolute offset 4096. -/
def straddleFile : List Nat :=
  List.replicate 4096 0 ++ [1, 2]

/-- Unfolding equation for one iteration of the scan loop. -/
theorem scanChunksFuel_succ (p : List Nat) (inc : Bool) (fuel : Nat)
    (remaining buffer : List Nat) :
    scanChunksFuel p inc (fuel + 1) remaining buffer =
      if remaining.isEmpty then 0
      else
        match findPattern p (buffer ++ remaining.take 4096) with
        | some pos => if inc then pos + p.length else pos
        | none =>
            scanChunksFuel p inc fuel (remaining.drop 4096)
              (trimBuffer (buffer ++ remaining.take 4096) p) := rfl

/-- The pattern `[1, 2]` never occurs in a run of zero bytes. -/
theorem findAux_replicate_none (i n : Nat) :
    findAux [1, 2] i (List.replicate n 0) = none := by
  induction n generalizing i with
  | zero => simp [findAux, List.isPrefixOf]
  | succ n ih => simp [List.replicate_succ, findAux, List.isPrefixOf, ih]

/-- The pattern `[1, 2]` first occurs right after a run of `n` zero bytes. -/
theorem findAux_replicate_append (i n : Nat) :
    findAux [1, 2] i (List.replicate n 0 ++ [1, 2]) = some (i + n) := by
  induction n generalizing i with
  | zero => simp [findAux, List.isPrefixOf]
  | succ n ih =>
    simp only [List.replicate_succ, List.cons_append, findAux, List.isPrefixOf]
    norm_num [ih]
    omega

/-- On exhausted input the loop body never runs and the scan returns `0`. -/
theorem scanChunksFuel_nil (p : List Nat) (inc : Bool) (fuel : Nat) (buffer : List Nat) :
    scanChunksFuel p inc fuel [] buffer = 0 := by
  cases fuel <;> rfl

/-- One loop iteration in which `find` misses: trim and continue. -/
theorem scanChunksFuel_step_none (p : List Nat) (inc : Bool) (fuel : Nat)
    (remaining buffer : List Nat) (hne : remaining.isEmpty = false)
    (hfind : findPattern p (buffer ++ remaining.take 4096) = none) :
    scanChunksFuel p inc (fuel + 1) remaining buffer =
      scanChunksFuel p inc fuel (remaining.drop 4096)
        (trimBuffer (buffer ++ remaining.take 4096) p) := by
  rw [scanChunksFuel_succ, hne, hfind]
  rfl

/-- One loop iteration in which `find` hits: return the buffer position. -/
theorem scanChunksFuel_step_some (p : List Nat) (inc : Bool) (fuel : Nat)
    (remaining buffer : List Nat) (pos : Nat) (hne : remaining.isEmpty = false)
    (hfind : findPattern p (buffer ++ remaining.take 4096) = some pos) :
    scanChunksFuel p inc (fuel + 1) remaining buffer =
      if inc then pos + p.length else pos := by
  rw [scanChunksFuel_succ, hne, hfind]
  rfl

theorem straddleFile_length : straddleFile.length = 4098 := by
  unfold straddleFile
  rw [List.length_append, List.length_replicate]
  rfl

theorem straddleFile_take : straddleFile.take 4096 = List.replicate 4096 0 := by
  unfold straddleFile
  exact List.take_left' (List.length_replicate 4096 0)

theorem straddleFile_drop : straddleFile.drop 4096 = [1, 2] := by
  unfold straddleFile
  exact List.drop_left' (List.length_replicate 4096 0)

theorem straddleFile_ne_empty : straddleFile.isEmpty = false := by
  unfold straddleFile
  rw [List.isEmpty_eq_false]
  intro h
  exact absurd (List.append_eq_nil.mp h).2 (by decide)

theorem trimBuffer_replicate : trimBuffer (List.replicate 4096 0) [1, 2] = [0, 0] := by
  unfold trimBuffer
  rw [List.length_replicate, if_pos (by decide : ([1, 2] : List Nat).length < 4096),
    List.drop_replicate]
  decide

/-- What the chunked scan of Netra.cpp actually computes on the straddle
file: the match position inside the trimmed rolling buffer (2, or 4 with
the include flag), not the absolute file offset 4096. -/
theorem scan_straddleFile (inc : Bool) :
    scanChunksFuel [1, 2] inc (straddleFile.length + 1) straddleFile [] =
      if inc then 4 else 2 := by
  rw [straddleFile_length]
  rw [scanChunksFuel_step_none [1, 2] inc 4098 straddleFile [] straddleFile_ne_empty
    (by rw [List.nil_append, straddleFile_take]; exact findAux_replicate_none 0 4096)]
  rw [List.nil_append, straddleFile_take, straddleFile_drop, trimBuffer_replicate]
  rw [show (4098 : Nat) = 4097 + 1 from rfl]
  rw [scanChunksFuel_step_some [1, 2] inc 4097 [1, 2] [0, 0] 2 rfl (by decide)]
  cases inc <;> rfl


/-- Occurrence of a byte pattern anywhere in a byte list, as a contiguous
substring. -/
theorem infix_of_findAux_some {p l : List Nat} {i j : Nat}
    (h : findAux p i l = some j) : p <:+: l := by
  induction l generalizing i with
  | nil =>
    unfold findAux at h
    by_cases hp : p.isPrefixOf ([] : List Nat)
    · exact (List.isPrefixOf_iff_prefix.mp hp).isInfix
    · rw [if_neg hp] at h
      exact absurd h (by simp)
  | cons a t ih =>
    unfold findAux at h
    by_cases hp : p.isPrefixOf (a :: t)
    · exact (List.isPrefixOf_iff_prefix.mp hp).isInfix
    · rw [if_neg hp] at h
      exact List.infix_cons (ih h)

theorem infix_of_findPattern_some {p l : List Nat} {j : Nat}
    (h : findPattern p l = some j) : p <:+: l :=
  infix_of_findAux_some h

/-- An empty needle is found immediately by `find`, at position `0`. -/
theorem findPattern_nil (l : List Nat) : findPattern [] l = some 0 := by
  cases l <;> simp [findPattern, findAux, List.isPrefixOf]

theorem suffix_append_right {a b : List Nat} (r : List Nat) (h : a <:+ b) :
    a ++ r <:+ b ++ r := by
  obtain ⟨x, hx⟩ := h
  exact ⟨x, by rw [← hx, List.append_assoc]⟩

/-- If the pattern occurs nowhere in the file, every iteration of the scan
loop misses and the scan returns `0` — regardless of fuel, as long as the
rolling buffer glued to the unread remainder is a suffix of the file. -/
theorem scanChunksFuel_eq_zero_of_not_infix {p : List Nat} (inc : Bool)
    {file : List Nat} (hocc : ¬ p <:+: file) :
    ∀ fuel remaining buffer, buffer ++ remaining <:+ file →
      scanChunksFuel p inc fuel remaining buffer = 0 := by
  intro fuel
  induction fuel with
  | zero => intro remaining buffer _; rfl
  | succ fuel ih =>
    intro remaining buffer hsuf
    by_cases hrem : remaining.isEmpty
    · rw [List.isEmpty_iff.mp hrem]
      exact scanChunksFuel_nil p inc (fuel + 1) buffer
    · have hne : remaining.isEmpty = false := by
        cases hempty : remaining.isEmpty
        · rfl
        · exact absurd hempty hrem
      have hbufsplit : (buffer ++ remaining.take 4096) ++ remaining.drop 4096 =
          buffer ++ remaining := by
        rw [List.append_assoc, List.take_append_drop]
      cases hfind : findPattern p (buffer ++ remaining.take 4096) with
      | some pos =>
        exfalso
        apply hocc
        have h1 : buffer ++ remaining.take 4096 <+: buffer ++ remaining :=
          ⟨remaining.drop 4096, hbufsplit⟩
        exact ((infix_of_findPattern_some hfind).trans h1.isInfix).trans hsuf.isInfix
      | none =>
        rw [scanChunksFuel_step_none p inc fuel remaining buffer hne hfind]
        apply ih
        have htrim : trimBuffer (buffer ++ remaining.take 4096) p <:+
            buffer ++ remaining.take 4096 := by
          unfold trimBuffer
          by_cases hlt : p.length < (buffer ++ remaining.take 4096).length
          · rw [if_pos hlt]
            exact List.drop_suffix _ _
          · rw [if_neg hlt]
        have := suffix_append_right (remaining.drop 4096) htrim
        rw [hbufsplit] at this
        exact this.trans hsuf


/-- C1: the spec claims the pattern search returns the earliest absolute
byte offset of the first occurrence of the pattern (plus the pattern length
when the include flag is set), including when the occurrence lies beyond
the first 4096-byte chunk.  The code returns the match position within the
trimmed rolling buffer instead (`totalRead` is accumulated but never added):
on a 4098-byte file whose single occurrence of the two-byte pattern starts
at absolute offset 4096, `WriteFile::countBytesBeforePattern` returns 2
(4 with the include flag) and `ReadFile::GetBytesBefore` returns 2. -/
theorem C1_scan_returns_buffer_relative_offset :
    findPattern [1, 2] straddleFile = some 4096 ∧
    countBytesBeforePattern straddleFile [1, 2] false = 2 ∧
    countBytesBeforePattern straddleFile [1, 2] true = 4 ∧
    GetBytesBefore straddleFile [1, 2] false = 2 := by
  refine ⟨?_, ?_, ?_, ?_⟩
  · unfold findPattern straddleFile
    have h := findAux_replicate_append 0 4096
    rwa [Nat.zero_add] at h
  · unfold countBytesBeforePattern
    rw [if_neg (by decide : ¬([1, 2] : List Nat) = [])]
    exact scan_straddleFile false
  · unfold countBytesBeforePattern
    rw [if_neg (by decide : ¬([1, 2] : List Nat) = [])]
    exact scan_straddleFile true
  · unfold GetBytesBefore
    exact scan_straddleFile false

/-- C7: both pattern-search entry points return the sentinel value `0`, for
both settings of the include flag, whenever the pattern is empty or the
pattern occurs nowhere in the file; in particular an empty pattern never
matches everything, and a not-found result is indistinguishable from a
match at offset 0. -/
theorem C7_empty_or_absent_pattern_returns_zero (file pattern : List Nat) (inc : Bool)
    (h : pattern = [] ∨ ¬ pattern <:+: file) :
    countBytesBeforePattern file pattern inc = 0 ∧ GetBytesBefore file pattern inc = 0 := by
  rcases h with rfl | hocc
  · constructor
    · unfold countBytesBeforePattern
      rw [if_pos rfl]
    · unfold GetBytesBefore
      cases file with
      | nil => exact scanChunksFuel_nil [] inc _ []
      | cons a t =>
        rw [scanChunksFuel_step_some [] inc (a :: t).length (a :: t) [] 0 rfl
          (by rw [List.nil_append]; exact findPattern_nil _)]
        cases inc <;> rfl
  · constructor
    · unfold countBytesBeforePattern
      by_cases hp : pattern = []
      · rw [if_pos hp]
      · rw [if_neg hp]
        exact scanChunksFuel_eq_zero_of_not_infix inc hocc _ file [] (by simp)
    · exact scanChunksFuel_eq_zero_of_not_infix inc hocc _ file [] (by simp)

/-- Witness for C7 at a concrete file and pattern: the pattern `[9]` occurs
nowhere in the file `[5, 6]`, and both searches return `0`. -/
theorem C7_empty_or_absent_pattern_returns_zero_witness :
    countBytesBeforePattern [5, 6] [9] true = 0 ∧ GetBytesBefore [5, 6] [9] true = 0 :=
  C7_empty_or_absent_pattern_returns_zero [5, 6] [9] true (Or.inr (by decide))


/-- Pad or truncate to an exact width: `content` truncated to its first
`len` bytes when longer, or extended with zero bytes up to `len` when
shorter. -/
def padToLength (content : List Nat) (len : Nat) : List Nat :=
  content.take len ++ List.replicate (len - content.length) 0

theorem padToLength_length (content : List Nat) (len : Nat) :
    (padToLength content len).length = len := by
  unfold padToLength
  rw [List.length_append, List.length_take, List.length_replicate]
  omega

theorem padToLength_of_le {content : List Nat} {len : Nat} (h : len ≤ content.length) :
    padToLength content len = content.take len := by
  unfold padToLength
  rw [show len - content.length = 0 by omega, List.replicate_zero, List.append_nil]

theorem padToLength_of_lt {content : List Nat} {len : Nat} (h : content.length < len) :
    padToLength content len = content ++ List.replicate (len - content.length) 0 := by
  unfold padToLength
  rw [List.take_of_length_le (by omega)]

/-- Modelled from the spec: `WriteFile::insertAfterPos(content, pos, length)`
is declared in include/Netra.hpp (lines 159-177) but its definition is not
among the sources.  Following the spec, it fails when `pos` exceeds the
current file size; otherwise it grows the file by exactly `length` bytes,
shifting every byte at and after `pos` forward by `length` and filling the
vacated window at `pos` with `content` truncated to `length` bytes when
longer, or zero-padded up to `length` when shorter. -/
def insertAfterPos (file content : List Nat) (pos len : Nat) : Option (List Nat) :=
  if file.length < pos then none
  else some (file.take pos ++ padToLength content len ++ file.drop pos)

/-- The file content produced by a successful `insertAfterPos`. -/
def insertResult (file content : List Nat) (pos len : Nat) : List Nat :=
  (insertAfterPos file content pos len).getD []

/-- Modelled from the spec: `WriteFile::overwriteAtPos(content, pos, length)`
is declared in include/Netra.hpp (lines 179-197) but its definition is not
among the sources.  Following the spec, it fails when `pos` exceeds the
current file size; otherwise it overwrites `min(length, size - pos)` bytes
starting at `pos` with the padded/truncated content, clipped so that it
never writes past the current end of file, leaving the file size
unchanged. -/
def overwriteAtPos (file content : List Nat) (pos len : Nat) : Option (List Nat) :=
  if file.length < pos then none
  else
    some (file.take pos ++
      (padToLength content len).take (min len (file.length - pos)) ++
      file.drop (pos + min len (file.length - pos)))

/-- The file content produced by a successful `overwriteAtPos`. -/
def overwriteResult (file content : List Nat) (pos len : Nat) : List Nat :=
  (overwriteAtPos file content pos len).getD []


/-- C2: for `pos` not exceeding the file size, `insertAfterPos(content,
pos, length)` grows the file by exactly `length` bytes; bytes below `pos`
are unchanged; the `length`-byte window at `pos` holds `content` truncated
to `length` bytes when longer, or `content` followed by zero-byte padding
when shorter; the bytes from `pos + length` onward equal the original
bytes from `pos` onward.  It fails when `pos` exceeds the file size. -/
theorem C2_insertAfterPos_grows_and_shifts (file content : List Nat) (pos len : Nat) :
    (pos ≤ file.length →
      insertAfterPos file content pos len =
        some (file.take pos ++ padToLength content len ++ file.drop pos) ∧
      (insertResult file content pos len).length = file.length + len ∧
      (∀ i, i < pos → (insertResult file content pos len)[i]? = file[i]?) ∧
      ((insertResult file content pos len).drop pos).take len = padToLength content len ∧
      (len ≤ content.length →
        ((insertResult file content pos len).drop pos).take len = content.take len) ∧
      (content.length < len →
        ((insertResult file content pos len).drop pos).take len =
          content ++ List.replicate (len - content.length) 0) ∧
      (insertResult file content pos len).drop (pos + len) = file.drop pos) ∧
    (file.length < pos → insertAfterPos file content pos len = none) := by
  constructor
  · intro h
    have hnot : ¬ file.length < pos := by omega
    have hres : insertResult file content pos len =
        file.take pos ++ padToLength content len ++ file.drop pos := by
      unfold insertResult insertAfterPos
      rw [if_neg hnot]
      rfl
    have hAlen : (file.take pos).length = pos := by
      rw [List.length_take]; omega
    have hwin : ((insertResult file content pos len).drop pos).take len =
        padToLength content len := by
      rw [hres, List.append_assoc, List.drop_left' hAlen,
        List.take_left' (padToLength_length content len)]
    refine ⟨?_, ?_, ?_, hwin, ?_, ?_, ?_⟩
    · unfold insertAfterPos
      rw [if_neg hnot]
    · rw [hres, List.length_append, List.length_append, padToLength_length,
        hAlen, List.length_drop]
      omega
    · intro i hi
      rw [hres, List.append_assoc,
        List.getElem?_append_left (by rw [hAlen]; exact hi), List.getElem?_take,
        if_pos hi]
    · intro hle
      rw [hwin, padToLength_of_le hle]
    · intro hlt
      rw [hwin, padToLength_of_lt hlt]
    · have hABlen : (file.take pos ++ padToLength content len).length = pos + len := by
        rw [List.length_append, hAlen, padToLength_length]
      rw [hres, List.drop_left' hABlen]
  · intro h
    unfold insertAfterPos
    rw [if_pos h]

/-- Witness for C2: inserting one byte with window width 2 at position 1
of a three-byte file succeeds and grows the file to five bytes; position 4
on the same file fails. -/
theorem C2_insertAfterPos_grows_and_shifts_witness :
    insertAfterPos [1, 2, 3] [7] 1 2 =
      some ([1, 2, 3].take 1 ++ padToLength [7] 2 ++ [1, 2, 3].drop 1) ∧
    (insertResult [1, 2, 3] [7] 1 2).length = [1, 2, 3].length + 2 ∧
    insertAfterPos [1, 2, 3] [7] 4 2 = none :=
  ⟨((C2_insertAfterPos_grows_and_shifts [1, 2, 3] [7] 1 2).1 (by decide)).1,
   ((C2_insertAfterPos_grows_and_shifts [1, 2, 3] [7] 1 2).1 (by decide)).2.1,
   (C2_insertAfterPos_grows_and_shifts [1, 2, 3] [7] 4 2).2 (by decide)⟩

/-- C4: for `pos` not exceeding the file size, `overwriteAtPos(content,
pos, length)` leaves the file size unchanged, writes exactly
`min(length, size - pos)` bytes of the padded/truncated content starting
at `pos`, never writes past the current end of file (every byte at an
offset at or beyond `pos + min(length, size - pos)` is unchanged, as is
every byte below `pos`), and fails when `pos` exceeds the file size. -/
theorem C4_overwriteAtPos_preserves_size (file content : List Nat) (pos len : Nat) :
    (pos ≤ file.length →
      overwriteAtPos file content pos len =
        some (file.take pos ++
          (padToLength content len).take (min len (file.length - pos)) ++
          file.drop (pos + min len (file.length - pos))) ∧
      (overwriteResult file content pos len).length = file.length ∧
      (∀ i, i < pos → (overwriteResult file content pos len)[i]? = file[i]?) ∧
      (∀ i, pos + min len (file.length - pos) ≤ i →
        (overwriteResult file content pos len)[i]? = file[i]?) ∧
      ((overwriteResult file content pos len).drop pos).take
          (min len (file.length - pos)) =
        (padToLength content len).take (min len (file.length - pos))) ∧
    (file.length < pos → overwriteAtPos file content pos len = none) := by
  constructor
  · intro h
    have hnot : ¬ file.length < pos := by omega
    have hres : overwriteResult file content pos len =
        file.take pos ++
          (padToLength content len).take (min len (file.length - pos)) ++
          file.drop (pos + min len (file.length - pos)) := by
      unfold overwriteResult overwriteAtPos
      rw [if_neg hnot]
      rfl
    have hAlen : (file.take pos).length = pos := by
      rw [List.length_take]; omega
    have hBlen : ((padToLength content len).take (min len (file.length - pos))).length =
        min len (file.length - pos) := by
      rw [List.length_take, padToLength_length]
      omega
    have hABlen : (file.take pos ++
        (padToLength content len).take (min len (file.length - pos))).length =
        pos + min len (file.length - pos) := by
      rw [List.length_append, hAlen, hBlen]
    have hlen : (overwriteResult file content pos len).length = file.length := by
      rw [hres, List.length_append, List.length_append, hAlen, hBlen, List.length_drop]
      omega
    refine ⟨?_, hlen, ?_, ?_, ?_⟩
    · unfold overwriteAtPos
      rw [if_neg hnot]
    · intro i hi
      rw [hres, List.append_assoc,
        List.getElem?_append_left (by rw [hAlen]; exact hi), List.getElem?_take,
        if_pos hi]
    · intro i hi
      by_cases hil : i < file.length
      · rw [hres, List.getElem?_append_right (by rw [hABlen]; exact hi), hABlen,
          List.getElem?_drop,
          show pos + min len (file.length - pos) + (i - (pos + min len (file.length - pos))) =
            i from by omega]
      · rw [List.getElem?_eq_none (by rw [hlen]; omega),
          List.getElem?_eq_none (by omega)]
    · rw [hres, List.append_assoc, List.drop_left' hAlen, List.take_left' hBlen]
  · intro h
    unfold overwriteAtPos
    rw [if_pos h]

/-- Witness for C4: overwriting with window width 3 at position 2 of a
four-byte file succeeds and keeps the size at 4; position 5 on the same
file fails. -/
theorem C4_overwriteAtPos_preserves_size_witness :
    (overwriteResult [1, 2, 3, 4] [7] 2 3).length = [1, 2, 3, 4].length ∧
    overwriteAtPos [1, 2, 3, 4] [7] 5 3 = none :=
  ⟨((C4_overwriteAtPos_preserves_size [1, 2, 3, 4] [7] 2 3).1 (by decide)).2.1,
   (C4_overwriteAtPos_preserves_size [1, 2, 3, 4] [7] 5 3).2 (by decide)⟩


/-- Embedding of `ReadFile::ReadBytesFrom(pos, count)` (Netra.cpp, lines
462-489) on file content `file`: returns empty when `pos` is at or beyond
the end of file; otherwise reads `filesize - pos` bytes when `count = 0`
or when `pos + count` overruns the file, else `count` bytes, starting at
absolute offset `pos`. -/
def ReadBytesFrom (file : List Nat) (pos count : Nat) : List Nat :=
  if file.length ≤ pos then []
  else
    (file.drop pos).take
      (if count = 0 ∨ file.length < pos + count then file.length - pos else count)

/-- C5: `ReadBytesFrom(pos, count)` returns empty when `pos ≥ S`; exactly
the `S - pos` bytes from `pos` to end of file when `pos < S` and
`count = 0`; and `min(count, S - pos)` bytes starting at absolute offset
`pos` when `pos < S` and `count > 0`. -/
theorem C5_ReadBytesFrom_clips_to_available (file : List Nat) (pos count : Nat) :
    (file.length ≤ pos → ReadBytesFrom file pos count = []) ∧
    (pos < file.length → count = 0 →
      ReadBytesFrom file pos count = file.drop pos ∧
      (ReadBytesFrom file pos count).length = file.length - pos) ∧
    (pos < file.length → 0 < count →
      ReadBytesFrom file pos count = (file.drop pos).take (min count (file.length - pos)) ∧
      (ReadBytesFrom file pos count).length = min count (file.length - pos)) := by
  refine ⟨?_, ?_, ?_⟩
  · intro h
    unfold ReadBytesFrom
    rw [if_pos h]
  · intro hpos hc
    have hnot : ¬ file.length ≤ pos := by omega
    have hres : ReadBytesFrom file pos count = file.drop pos := by
      unfold ReadBytesFrom
      rw [if_neg hnot, if_pos (Or.inl hc)]
      exact List.take_of_length_le (by rw [List.length_drop])
    exact ⟨hres, by rw [hres, List.length_drop]⟩
  · intro hpos hc
    have hnot : ¬ file.length ≤ pos := by omega
    by_cases hover : file.length < pos + count
    · have hres : ReadBytesFrom file pos count = (file.drop pos).take (file.length - pos) := by
        unfold ReadBytesFrom
        rw [if_neg hnot, if_pos (Or.inr hover)]
      have hmin : min count (file.length - pos) = file.length - pos := by omega
      refine ⟨by rw [hres, hmin], ?_⟩
      rw [hres, List.length_take, List.length_drop]
      omega
    · have hres : ReadBytesFrom file pos count = (file.drop pos).take count := by
        unfold ReadBytesFrom
        rw [if_neg hnot, if_neg (by push_neg; exact ⟨by omega, by omega⟩)]
      have hmin : min count (file.length - pos) = count := by omega
      refine ⟨by rw [hres, hmin], ?_⟩
      rw [hres, List.length_take, List.length_drop]

/-- Witness for C5 on the four-byte file `[1, 2, 3, 4]`: a read at
position 5 is empty, a count-0 read at position 1 reaches end of file, and
a count-2 read at position 1 returns the clipped window. -/
theorem C5_ReadBytesFrom_clips_to_available_witness :
    ReadBytesFrom [1, 2, 3, 4] 5 0 = [] ∧
    ReadBytesFrom [1, 2, 3, 4] 1 0 = [1, 2, 3, 4].drop 1 ∧
    ReadBytesFrom [1, 2, 3, 4] 1 2 =
      ([1, 2, 3, 4].drop 1).take (min 2 ([1, 2, 3, 4].length - 1)) :=
  ⟨(C5_ReadBytesFrom_clips_to_available [1, 2, 3, 4] 5 0).1 (by decide),
   ((C5_ReadBytesFrom_clips_to_available [1, 2, 3, 4] 1 0).2.1 (by decide) rfl).1,
   ((C5_ReadBytesFrom_clips_to_available [1, 2, 3, 4] 1 2).2.2 (by decide) (by decide)).1⟩

/-- Embedding of `ReadFile::ReadBytes(count)` (Netra.cpp, lines 410-420):
reads up to `count` bytes from the current stream position, fewer at end
of file. -/
def ReadBytes (file : List Nat) (cursor count : Nat) : List Nat :=
  (file.drop cursor).take count

/-- State of one `ReadFile` instance: the file at its path (`none` when
missing) and whether the instance currently holds the file open. -/
structure ReadFileState where
  fsFile : Option (List Nat)
  isOpen : Bool

/-- Embedding of `ReadFile::GetFileSize()` (Netra.cpp, lines 496-501): a
stat query on the path that returns `0` when the file does not exist and
the byte size otherwise; it never consults the open handle. -/
def GetFileSize (s : ReadFileState) : Nat :=
  match s.fsFile with
  | none => 0
  | some f => f.length

/-- Embedding of `ReadFile::FileExists()` (Netra.cpp, lines 491-494). -/
def FileExists (s : ReadFileState) : Bool :=
  s.fsFile.isSome

/-- Embedding of `ReadFile::Open()` (Netra.cpp, lines 351-358) as invoked
by a thread that may already hold this instance's `mtx_` (`held`): the
method begins with `lock_guard(mtx_)`, and `mtx_` is a plain
non-recursive `std::mutex`, so when `held` the second acquisition never
returns — modelled as `none`.  Otherwise the file is (re)opened and the
call reports whether the open succeeded. -/
def OpenWithLock (held : Bool) (s : ReadFileState) : Option Bool :=
  if held then none else some s.fsFile.isSome

/-- Embedding of `ReadFile::ReadBytes(count)` (Netra.cpp, lines 410-420)
as invoked by a thread that may already hold `mtx_`: the method begins
with `lock_guard(mtx_)`, so when `held` the call never returns (`none`);
otherwise it reads up to `count` bytes from the stream position. -/
def ReadBytesWithLock (held : Bool) (file : List Nat) (cursor count : Nat) :
    Option (List Nat) :=
  if held then none else some (ReadBytes file cursor count)

/-- Embedding of `ReadFile::ReadAllBinary()` (Netra.cpp, lines 386-393):
acquires `mtx_`, and with that lock held runs
`if (!file_.is_open() && !Open()) return {}; return ReadBytes(GetFileSize());`.
Both callees are invoked with `held = true` because the caller's
`lock_guard` is still active: `Open()` (line 353) on the not-open path
and `ReadBytes` (line 412) on every path that reaches the final read
re-acquire the same non-recursive mutex.  `none` models a call that
never returns. -/
def ReadAllBinary (s : ReadFileState) (cursor : Nat) : Option (List Nat) :=
  if s.isOpen then ReadBytesWithLock true (s.fsFile.getD []) cursor (GetFileSize s)
  else
    match OpenWithLock true s with
    | none => none
    | some false => some []
    | some true => ReadBytesWithLock true (s.fsFile.getD []) cursor (GetFileSize s)

/-- The open modes used by the private `WriteFile::writeBinary`. -/
inductive OpenMode
  | trunc
  | append

/-- Embedding of the private `WriteFile::writeBinary(data, mode)`
(Netra.cpp, lines 292-300): with truncation the file becomes exactly
`data`; in append mode `data` goes after the existing content (an absent
file is created empty first). -/
def writeBinary (oldFile : Option (List Nat)) (data : List Nat) : OpenMode → List Nat
  | .trunc => data
  | .append => oldFile.getD [] ++ data

/-- Embedding of `WriteFile::overwriteBinary(data)` (Netra.cpp, lines
261-265): truncate-and-replace the whole file with `data`. -/
def overwriteBinary (oldFile : Option (List Nat)) (data : List Nat) : List Nat :=
  writeBinary oldFile data OpenMode.trunc

/-- C6: the claim says `overwriteBinary(data)` followed by
`ReadAllBinary()` on the same path returns exactly `data`.  The write
succeeds, but `ReadAllBinary` holds `mtx_` and every path re-acquires the
same non-recursive mutex — through `Open()` when the file is not open,
through `ReadBytes` when it is — so the read call deadlocks (`none`)
instead of returning `data`, for any prior file content and either open
state of the reader. -/
theorem C6_round_trip_deadlocks
    (oldFile : Option (List Nat)) (data : List Nat) (b : Bool) :
    ReadAllBinary ⟨some (overwriteBinary oldFile data), b⟩ 0 = none ∧
    ReadAllBinary ⟨some (overwriteBinary oldFile data), b⟩ 0 ≠ some data := by
  have h1 : ReadAllBinary ⟨some (overwriteBinary oldFile data), b⟩ 0 = none := by
    cases b <;> rfl
  refine ⟨h1, ?_⟩
  rw [h1]
  exact fun h => Option.noConfusion h

/-- Embedding of `WriteFile::writeOriginal(content, position)` (Netra.cpp,
lines 237-256): the file is opened read/write without truncation (an
absent file is modelled as the empty byte list, matching the create-first
step), the stream seeks to `position` (the gap beyond the old end of file,
if any, reads back as zero bytes) and `content` is written in place. -/
def writeOriginal (file content : List Nat) (position : Nat) : List Nat :=
  (file ++ List.replicate (position - file.length) 0).take position ++ content ++
    (file ++ List.replicate (position - file.length) 0).drop (position + content.length)

/-- C8: `writeOriginal(content, position)` overwrites exactly
`len(content)` bytes starting at `position` without truncating the file:
every byte at an offset outside `[position, position + len(content))`
keeps its original value, trailing data is not shifted, and the file is
extended only when `position + len(content)` exceeds the current size. -/
theorem C8_writeOriginal_overwrites_in_place (file content : List Nat) (position : Nat) :
    (writeOriginal file content position).length =
      max file.length (position + content.length) ∧
    (∀ i, i < position → i < file.length →
      (writeOriginal file content position)[i]? = file[i]?) ∧
    (∀ i, position + content.length ≤ i → i < file.length →
      (writeOriginal file content position)[i]? = file[i]?) ∧
    ((writeOriginal file content position).drop position).take content.length = content ∧
    (position + content.length ≤ file.length →
      (writeOriginal file content position).length = file.length) := by
  have hpadlen : (file ++ List.replicate (position - file.length) 0).length =
      max file.length position := by
    rw [List.length_append, List.length_replicate]
    omega
  have hTlen : ((file ++ List.replicate (position - file.length) 0).take position).length =
      position := by
    rw [List.length_take, hpadlen]
    omega
  have hTClen : ((file ++ List.replicate (position - file.length) 0).take position ++
      content).length = position + content.length := by
    rw [List.length_append, hTlen]
  have hlen : (writeOriginal file content position).length =
      max file.length (position + content.length) := by
    unfold writeOriginal
    rw [List.length_append, List.length_append, hTlen, List.length_drop, hpadlen]
    omega
  refine ⟨hlen, ?_, ?_, ?_, fun h => by rw [hlen]; omega⟩
  · intro i hi hif
    unfold writeOriginal
    rw [List.append_assoc, List.getElem?_append_left (by rw [hTlen]; exact hi),
      List.getElem?_take, if_pos hi, List.getElem?_append_left hif]
  · intro i hi hif
    unfold writeOriginal
    rw [List.getElem?_append_right (by rw [hTClen]; exact hi), hTClen,
      List.getElem?_drop,
      show position + content.length + (i - (position + content.length)) = i from by omega,
      List.getElem?_append_left hif]
  · unfold writeOriginal
    rw [List.append_assoc, List.drop_left' hTlen, List.take_left' rfl]

/-- Witness for C8: writing one byte at position 1 of a four-byte file
keeps bytes 0 and 3 and the file size. -/
theorem C8_writeOriginal_overwrites_in_place_witness :
    (writeOriginal [1, 2, 3, 4] [9] 1)[0]? = [1, 2, 3, 4][0]? ∧
    (writeOriginal [1, 2, 3, 4] [9] 1)[3]? = [1, 2, 3, 4][3]? ∧
    (writeOriginal [1, 2, 3, 4] [9] 1).length = [1, 2, 3, 4].length :=
  ⟨(C8_writeOriginal_overwrites_in_place [1, 2, 3, 4] [9] 1).2.1 0 (by decide) (by decide),
   (C8_writeOriginal_overwrites_in_place [1, 2, 3, 4] [9] 1).2.2.1 3 (by decide) (by decide),
   (C8_writeOriginal_overwrites_in_place [1, 2, 3, 4] [9] 1).2.2.2.2 (by decide)⟩

/-- C10: `GetFileSize` never fails: on a missing file it returns `0`
rather than raising an error, so a missing file is indistinguishable from
an empty one; and both `GetFileSize` and `FileExists` depend only on the
file at the path, not on whether the instance holds the file open. -/
theorem C10_GetFileSize_missing_is_zero :
    (∀ b : Bool, GetFileSize ⟨none, b⟩ = 0) ∧
    (∀ b b' : Bool, GetFileSize ⟨none, b⟩ = GetFileSize ⟨some [], b'⟩) ∧
    (∀ s t : ReadFileState, s.fsFile = t.fsFile →
      GetFileSize s = GetFileSize t ∧ FileExists s = FileExists t) := by
  refine ⟨fun b => rfl, fun b b' => rfl, fun s t h => ?_⟩
  unfold GetFileSize FileExists
  rw [h]
  exact ⟨rfl, rfl⟩

/-- Witness for C10: the two stat queries agree on two instance states
that differ only in the open flag. -/
theorem C10_GetFileSize_missing_is_zero_witness :
    GetFileSize ⟨some [3], true⟩ = GetFileSize ⟨some [3], false⟩ ∧
    FileExists ⟨some [3], true⟩ = FileExists ⟨some [3], false⟩ :=
  C10_GetFileSize_missing_is_zero.2.2 ⟨some [3], true⟩ ⟨some [3], false⟩ rfl


/-- State of one `TcpServer` instance: the listening socket descriptor
(the C++ `serverSock_`, `-1` when none is held) and the running flag. -/
structure ServerState where
  serverSock : Int
  running : Bool

/-- A freshly constructed server (Netra.cpp, line 6): descriptor `-1`,
not running. -/
def initialServer : ServerState :=
  { serverSock := -1, running := false }

/-- Embedding of `TcpServer::start()` (Netra.cpp, lines 26-69).  The OS
outcomes are parameters: `sockRes` is what `socket()` returns (negative on
failure) and is assigned to `serverSock_` before it is checked, and
`bindOk` and `listenOk` say whether `bind` and `listen` succeed.  On any
failure the call returns `false` without closing or resetting the socket
it may have created; on success the running flag is set. -/
def start (s : ServerState) (sockRes : Int) (bindOk listenOk : Bool) :
    ServerState × Bool :=
  if sockRes < 0 then ({ s with serverSock := sockRes }, false)
  else if bindOk = false then ({ s with serverSock := sockRes }, false)
  else if listenOk = false then ({ s with serverSock := sockRes }, false)
  else ({ serverSock := sockRes, running := true }, true)

/-- Embedding of `TcpServer::stop()` (Netra.cpp, lines 78-110): clears the
running flag, then closes and resets the listening socket when it is
valid. -/
def stop (s : ServerState) : ServerState :=
  { serverSock := if 0 ≤ s.serverSock then -1 else s.serverSock, running := false }

/-- The `TcpServer` states reachable through sequences of `start()` and
`stop()` calls, `start()` being invoked on a stopped server as in the
spec's state machine, with every combination of OS outcomes (socket
creation, bind, listen failures included) possible at each `start()`. -/
inductive Reachable : ServerState → Prop
  | init : Reachable initialServer
  | step_start {s : ServerState} (sockRes : Int) (bindOk listenOk : Bool) :
      Reachable s → s.running = false →
      Reachable (start s sockRes bindOk listenOk).1
  | step_stop {s : ServerState} : Reachable s → Reachable (stop s)

/-- The invariant claimed by the spec: the listening socket handle is
valid (non-negative) exactly when the running flag is true. -/
def sockIffRunning (s : ServerState) : Prop :=
  0 ≤ s.serverSock ↔ s.running = true

/-- C3 counterexample: a `start()` on a fresh server in which `socket()`
returns descriptor 3 but `bind` fails reaches the state with a valid
(non-negative, unclosed) socket handle and a false running flag,
violating the claimed invariant. -/
theorem C3_invariant_fails_after_bind_failure :
    Reachable { serverSock := 3, running := false } ∧
    ¬ sockIffRunning { serverSock := 3, running := false } := by
  constructor
  · exact Reachable.step_start (s := initialServer) 3 false true Reachable.init rfl
  · intro hinv
    exact absurd (hinv.mp (by decide)) (by decide)

/-- C3 amended: over all reachable `TcpServer` states only one direction
of the claimed invariant holds — a true running flag implies a valid
(non-negative) listening socket handle.  The converse fails (see the
counterexample): a failed `bind` or `listen` leaves a valid handle with
the running flag false. -/
theorem C3_running_implies_valid_socket {s : ServerState}
    (h : Reachable s) (hr : s.running = true) : 0 ≤ s.serverSock := by
  induction h with
  | init => simp [initialServer] at hr
  | step_start sockRes bindOk listenOk hreach hstopped ih =>
    by_cases h1 : sockRes < 0
    · rw [start] at hr
      rw [if_pos h1] at hr
      simp [hstopped] at hr
    · by_cases h2 : bindOk = false
      · rw [start] at hr
        rw [if_neg h1, if_pos h2] at hr
        simp [hstopped] at hr
      · by_cases h3 : listenOk = false
        · rw [start] at hr
          rw [if_neg h1, if_neg h2, if_pos h3] at hr
          simp [hstopped] at hr
        · rw [start]
          rw [if_neg h1, if_neg h2, if_neg h3]
          show (0 : Int) ≤ sockRes
          omega
  | step_stop hreach ih => simp [stop] at hr

/-- Witness for the amended C3: a fully successful `start()` on a fresh
server reaches a running state whose handle is the descriptor `socket()`
returned. -/
theorem C3_running_implies_valid_socket_witness :
    (0 : Int) ≤ ({ serverSock := 3, running := true } : ServerState).serverSock :=
  C3_running_implies_valid_socket
    (Reachable.step_start (s := initialServer) 3 true true Reachable.init rfl) rfl

/-- Embedding of `TcpServer::receiveFromClient(clientSock, flag)`
(Netra.cpp, lines 160-172): a single `recv` into a 1024-byte buffer with
request size `sizeof(buffer) - 1 = 1023`.  `available` is the byte stream
this one call can deliver (what has arrived on the socket; in blocking
mode, what arrives before the call wakes); a zero-or-negative `recv`
result becomes the empty string.  The blocking flag selects only the OS
flags (0 versus MSG_DONTWAIT), not the cap. -/
def receiveFromClient (available : List Nat) ( _blocking : Bool) : List Nat :=
  if (available.take 1023).length = 0 then [] else available.take 1023

/-- C9: one call to `receiveFromClient` returns at most 1023 bytes in
either mode, even when more data is available — with at least 1023 bytes
pending it returns exactly the first 1023, so callers must call again to
drain larger payloads. -/
theorem C9_receive_caps_at_1023 (available : List Nat) (blocking : Bool) :
    (receiveFromClient available blocking).length ≤ 1023 ∧
    (1023 ≤ available.length →
      receiveFromClient available blocking = available.take 1023) := by
  constructor
  · unfold receiveFromClient
    by_cases h : (available.take 1023).length = 0
    · rw [if_pos h]
      exact Nat.zero_le _
    · rw [if_neg h, List.length_take]
      omega
  · intro h
    unfold receiveFromClient
    by_cases hz : (available.take 1023).length = 0
    · exfalso
      rw [List.length_take] at hz
      omega
    · rw [if_neg hz]

/-- Witness for C9: with 1024 bytes pending, a single receive returns the
first 1023 of them. -/
theorem C9_receive_caps_at_1023_witness :
    receiveFromClient (List.replicate 1024 7) true = (List.replicate 1024 7).take 1023 :=
  (C9_receive_caps_at_1023 (List.replicate 1024 7) true).2
    (by rw [List.length_replicate]; decide)

end QCL
